import Mathlib

/-!
Shallow embedding of `commands/run.go` of git-lfs: the deferred
command-registration and dispatch layer.  Pure text processing
(help lookup, completion post-processing) is embedded as functions on
`String` / `List Char`; the stateful lifecycle of `Run` is embedded as a
function producing an event trace, the assembled root command node, and
an exit code.  External collaborators (the cobra framework's generators
and tree lookup, the man-page table, the translation layer, the
filesystem and environment) are passed in as explicit parameters.
-/

namespace GitLfs

/-! ### Go text primitives -/

/-- Go `unicode.IsSpace`: the Unicode White_Space property
(`\t`, `\n`, `\v`, `\f`, `\r`, space, NEL, NBSP and the other
White_Space code points). -/
def goIsSpace (c : Char) : Bool :=
  c == ' ' || c == '\t' || c == '\n' || c.val == 11 || c.val == 12 ||
  c == '\r' || c.val == 0x85 || c.val == 0xA0 || c.val == 0x1680 ||
  (0x2000 ≤ c.val && c.val ≤ 0x200A) || c.val == 0x2028 ||
  c.val == 0x2029 || c.val == 0x202F || c.val == 0x205F || c.val == 0x3000

/-- Go `strings.TrimSpace` on a list of characters: drop leading and
trailing White_Space characters. -/
def trimSpaceList (s : List Char) : List Char :=
  ((s.dropWhile goIsSpace).reverse.dropWhile goIsSpace).reverse

/-- Go `strings.TrimSpace`. -/
def goTrimSpace (s : String) : String := ⟨trimSpaceList s.data⟩

/-- Go `bytes.Replace(s, old, new, 1)` restricted to the third argument:
replace the first occurrence of `old` in `s` by `new` (if `old` is empty,
`new` is inserted at the front, as in Go). -/
def replaceFirst (old new : List Char) : List Char → List Char
  | [] => if old.isEmpty then new else []
  | c :: rest =>
    if old.isPrefixOf (c :: rest) then new ++ (c :: rest).drop old.length
    else c :: replaceFirst old new rest

/-- Go `bytes.Replace(s, old, new, 1)` on strings.  The patterns used by
the completion command are pure ASCII, so the byte-level replacement in
Go coincides with this character-level one. -/
def goReplaceFirst (s old new : String) : String :=
  ⟨replaceFirst old.data new.data s.data⟩

/-! ### Help resolver (`printHelp`, `helpCommand`, lines 193–215) -/

/-- Modelled from the spec: the localized message the external
translation layer (`tr.Tr.Get`) produces for the format string
`"Sorry, no usage text found for %q"`; the `%q` verb is modelled as
wrapping the topic in double quotes (escaping inside the topic elided,
the formatting itself lives outside this repository). -/
def noUsageText (name : String) : String :=
  "Sorry, no usage text found for \"" ++ name ++ "\""

/-- `printHelp` (run.go lines 206–215).  The external read-only man-page
table `ManPages` is passed as an association list; the returned string is
what `fmt.Println` writes to standard output (including the trailing
newline). -/
def printHelp (manPages : List (String × String)) (commandName : String) : String :=
  let commandName := if commandName = "--help" then "git-lfs" else commandName
  match manPages.lookup commandName with
  | some txt => goTrimSpace txt ++ "\n"
  | none => noUsageText commandName ++ "\n"

/-- `helpCommand` (run.go lines 193–199): the help function installed on
the root; with no arguments it resolves the root's own name. -/
def helpCommand (manPages : List (String × String)) (args : List String) : String :=
  if args.length = 0 then printHelp manPages "git-lfs"
  else printHelp manPages (args.headD "")

/-! ### Completion command (run.go lines 66–129) -/

/-- The fixed trailer appended to the generated bash completion script
(run.go line 116). -/
def bashTrailer : String := "_git_lfs() \x7b __start_git-lfs; \x7d\n"

/-- The pattern replaced in the generated zsh completion script
(run.go line 121, first argument of the replacement). -/
def zshOldPat : String := "requestComp=\"$\x7bwords[1]\x7d"

/-- The replacement written into the generated zsh completion script
(run.go line 121, second argument of the replacement). -/
def zshNewPat : String := "requestComp=\"git-$\x7bwords[1]#*git-\x7d"

/-- The body of the completion command's `Run` (run.go lines 111–128).
The cobra generators (`GenBashCompletion` etc.) are external; their
outputs are passed in as the four `gen*` strings.  The result is what is
written to standard output; the `switch` has no default case, so an
unrecognized argument writes nothing. -/
def completionRun (genBash genZsh genFish genPowershell : String)
    (arg : String) : String :=
  if arg = "bash" then genBash ++ bashTrailer
  else if arg = "zsh" then goReplaceFirst genZsh zshOldPat zshNewPat
  else if arg = "fish" then genFish
  else if arg = "powershell" then genPowershell
  else ""

/-- `ValidArgs` of the completion command (run.go line 109). -/
def validShells : List String := ["bash", "zsh", "fish", "powershell"]

/-- Modelled from the spec: the cobra framework's `ExactArgs(n)`
positional-argument validator (cobra is an external dependency; the spec
describes a validate-then-execute discipline): accept exactly `n`
arguments. -/
def exactArgs (n : Nat) (args : List String) : Bool := args.length == n

/-- Modelled from the spec: the cobra framework's `OnlyValidArgs`
validator: every argument must be one of the command's `ValidArgs`. -/
def onlyValidArgs (valid : List String) (args : List String) : Bool :=
  args.all (fun a => valid.contains a)

/-- Modelled from the spec: the cobra framework's `MatchAll` combinator:
all listed validators must accept. -/
def matchAll (ps : List (List String → Bool)) (args : List String) : Bool :=
  ps.all (fun p => p args)

/-- The `Args` validator installed on the completion command
(run.go line 110): `cobra.MatchAll(cobra.ExactArgs(1), cobra.OnlyValidArgs)`
with `ValidArgs` the four shells. -/
def completionArgs (args : List String) : Bool :=
  matchAll [exactArgs 1, onlyValidArgs validShells] args

/-- Outcome of dispatching the completion command. -/
structure CompletionResult where
  validationError : Bool
  output : String
deriving DecidableEq

/-- Modelled from the spec: the cobra framework runs a command's `Args`
validator before its `Run` body (validate-then-execute), so an invalid
argument vector is rejected with a validation error and the generation
body never runs. -/
def completionExecute (genBash genZsh genFish genPowershell : String)
    (args : List String) : CompletionResult :=
  if completionArgs args then
    { validationError := false
      output := completionRun genBash genZsh genFish genPowershell (args.headD "") }
  else
    { validationError := true, output := "" }

/-! ### The help subcommand (run.go lines 135–157) -/

/-- A cobra command node, restricted to the fields this layer touches:
the `Use` line, the identity of the `Run` function (opaque to this
layer), the `PreRun` hook, and the attached children. -/
inductive Cmd : Type where
  | mk : String → String → Option String → List Cmd → Cmd

/-- The `Use` field of a command node. -/
def Cmd.use : Cmd → String
  | .mk u _ _ _ => u

/-- The identity of the node's `Run` function. -/
def Cmd.runId : Cmd → String
  | .mk _ r _ _ => r

/-- The `PreRun` hook of a command node (`some` names the hook function,
`none` is Go `nil`). -/
def Cmd.preRun : Cmd → Option String
  | .mk _ _ p _ => p

/-- The children attached to a command node by `AddCommand`. -/
def Cmd.children : Cmd → List Cmd
  | .mk _ _ _ cs => cs

/-- What the help subcommand's `Run` does with its arguments. -/
inductive HelpAction : Type where
  | showHelp (cmd : Cmd) (args : List String)
  | printUnknownAndUsage (args : List String)

/-- The help subcommand's `Run` (run.go lines 141–156).  The cobra tree
lookup `c.Root().Find` is external and passed in as `find`, returning
the found node (or `none` for Go `nil`) and whether an error occurred.
`args.headD ""` models `args[0]`; the alias branch is only reachable
with a non-empty argument list, since `Find` never errors on an empty
one.  `printUnknownAndUsage` stands for printing the localized
"Unknown help topic" message followed by the root usage. -/
def helpcmdRun (find : List String → Option Cmd × Bool)
    (args : List String) : HelpAction :=
  let r := find args
  let r :=
    if r.2 && (args.headD "" == "config" || args.headD "" == "faq") then
      find ["help"]
    else r
  match r with
  | (some c, false) => HelpAction.showHelp c args
  | _ => HelpAction.printUnknownAndUsage args

/-! ### Diagnostics hook (`setupHTTPLogger`, run.go lines 217–235) -/

/-- The observable effects of one invocation of `setupHTTPLogger`:
whether a warning was printed to the error stream, whether the log
directory was created, the full path of the created log file (if any),
and whether the open file was attached to the shared API client as a
log sink.  The hook always returns normally, so it never fails the
surrounding command. -/
structure HTTPLoggerEffects where
  warnedStderr : Bool
  dirCreated : Bool
  logFile : Option String
  sinkAttached : Bool
deriving DecidableEq

/-- The log file name `http-<unix-seconds>.log` (run.go line 228). -/
def httpLogFileName (now : Int) : String := "http-" ++ toString now ++ ".log"

/-- `setupHTTPLogger` (run.go lines 217–235).  External inputs are
passed as parameters: `gitLogStats` is `os.Getenv("GIT_LOG_STATS")`
(the empty string when unset), `localLogDir` is `cfg.LocalLogDir()`,
`mkdirOk` and `createOk` are the outcomes of `tools.MkdirAll` and
`os.Create`, and `now` is `time.Now().Unix()`.  `filepath.Join` is
modelled as `/`-concatenation. -/
def setupHTTPLogger (gitLogStats : String) (localLogDir : String)
    (mkdirOk : Bool) (createOk : Bool) (now : Int) : HTTPLoggerEffects :=
  if gitLogStats.length < 1 then
    { warnedStderr := false, dirCreated := false, logFile := none,
      sinkAttached := false }
  else if !mkdirOk then
    { warnedStderr := true, dirCreated := false, logFile := none,
      sinkAttached := false }
  else if !createOk then
    { warnedStderr := true, dirCreated := true, logFile := none,
      sinkAttached := false }
  else
    { warnedStderr := false, dirCreated := true,
      logFile := some (localLogDir ++ "/http/" ++ httpLogFileName now),
      sinkAttached := true }

/-! ### Registration and the Run lifecycle (run.go lines 19–184) -/

/-- `NewCommand` (run.go lines 31–33): a node with the given name and
run function, whose `PreRun` hook is `setupHTTPLogger`, and no
children. -/
def NewCommand (name : String) (runId : String) : Cmd :=
  Cmd.mk name runId (some "setupHTTPLogger") []

/-- The builder closure appended to `commandFuncs` by `RegisterCommand`
(run.go lines 43–53): build the node with `NewCommand`, let the optional
customize callback `fn` act on it (in Go, `fn` mutates the node through
the pointer, here it maps the node), and return the node.  The Go
closure returns the pointer obtained from `NewCommand`, which is never
nil, so the result is always `some`. -/
def registeredBuilder (name : String) (runId : String)
    (fn : Option (Cmd → Cmd)) : Option Cmd :=
  let cmd := NewCommand name runId
  let cmd :=
    match fn with
    | some f => f cmd
    | none => cmd
  some cmd

/-- One call to `RegisterCommand` before `Run`: its name, run function
identity, and optional customize callback. -/
structure Registration where
  name : String
  runId : String
  fn : Option (Cmd → Cmd)

/-- The contents of `commandFuncs` after a sequence of `RegisterCommand`
calls, as the builders' return values in registration order. -/
def registryBuilders (regs : List Registration) : List (Option Cmd) :=
  regs.map (fun r => registeredBuilder r.name r.runId r.fn)

/-- The observable steps of `Run`, in program order. -/
inductive Event : Type where
  | setLogOutput
  | initLocale
  | buildRootAndFixedNodes
  | canonicalizeEnv
  | constructConfig
  | invokeBuilder (i : Nat)
  | addChild (i : Nat)
  | execute
  | closeClient
deriving DecidableEq

/-- Whether an event is the invocation of a registered builder. -/
def Event.isInvoke : Event → Bool
  | .invokeBuilder _ => true
  | _ => false

/-- The events of the realization loop (run.go lines 171–175), starting
at builder index `i`: each builder is invoked in order, and a non-nil
result is attached to the root right away. -/
def realizeEvents : Nat → List (Option Cmd) → List Event
  | _, [] => []
  | i, some _ :: bs => .invokeBuilder i :: .addChild i :: realizeEvents (i + 1) bs
  | i, none :: bs => .invokeBuilder i :: realizeEvents (i + 1) bs

/-- The nodes the realization loop attaches to the root: the non-nil
builder results, in order. -/
def realizedChildren (builders : List (Option Cmd)) : List Cmd :=
  builders.filterMap id

/-- The completion command node (run.go lines 66–129): a plain cobra
command literal, so its `PreRun` is Go `nil`. -/
def completionCmdNode : Cmd :=
  Cmd.mk "completion [bash|zsh|fish|powershell]" "completionRun" none []

/-- The help command node (run.go lines 135–157), installed via
`SetHelpCommand`; also a plain literal with no `PreRun`. -/
def helpCmdNode : Cmd :=
  Cmd.mk "help [command]" "helpcmdRun" none []

/-- The root node as assembled by `Run` (run.go lines 63–175): built by
`NewCommand "git-lfs"` with its `PreRun` then reset to `nil`
(line 64); `completionCmd` is attached first (line 131), then the
realized registry nodes (lines 171–175). -/
def rootNode (builders : List (Option Cmd)) : Cmd :=
  Cmd.mk "git-lfs" "gitlfsCommand" none
    (completionCmdNode :: realizedChildren builders)

/-- The outcome of one invocation of `Run`: the trace of its observable
steps, the assembled root, the help command node installed by
`SetHelpCommand`, and the returned exit code. -/
structure RunOutcome where
  trace : List Event
  root : Cmd
  helpCmd : Cmd
  exitCode : Nat

/-- `Run` (run.go lines 59–184).  The registered builders' results are
passed in (their invocation is recorded in the trace); `execErr` is the
result of the external dispatch `root.Execute()` — `none` for success,
`some msg` for any error.  The trace records, in program order: the log
output redirection (line 60) and locale initialization (line 61); the
construction of the root, completion and help nodes together with the
help/usage overrides and the version flag (lines 63–165);
`canonicalizeEnvironment()` (line 167); `cfg = config.New()`
(line 169); the realization loop (lines 171–175); `root.Execute()`
(line 177); and `closeAPIClient()` (line 178).  The exit code is 127
when `Execute` returned an error and 0 otherwise (lines 180–183). -/
def Run (builders : List (Option Cmd)) (execErr : Option String) : RunOutcome :=
  { trace :=
      [Event.setLogOutput, Event.initLocale, Event.buildRootAndFixedNodes,
       Event.canonicalizeEnv, Event.constructConfig]
      ++ realizeEvents 0 builders ++ [Event.execute, Event.closeClient]
    root := rootNode builders
    helpCmd := helpCmdNode
    exitCode := if execErr.isSome then 127 else 0 }

/-! ### Helper lemmas -/

/-- A Go string has length below one exactly when it is empty, which is
how `setupHTTPLogger` tests its environment toggle. -/
theorem string_length_lt_one_iff (s : String) : s.length < 1 ↔ s = "" := by
  rw [Nat.lt_one_iff]
  constructor
  · intro h
    cases s with
    | mk data =>
      cases data with
      | nil => rfl
      | cons c cs => simp [String.length] at h
  · intro h
    rw [h]
    rfl

/-- Every event of the realization loop is a builder invocation or a
child attachment. -/
theorem realizeEvents_mem (i : Nat) (bs : List (Option Cmd)) (e : Event)
    (he : e ∈ realizeEvents i bs) :
    (∃ j, e = Event.invokeBuilder j) ∨ ∃ j, e = Event.addChild j := by
  induction bs generalizing i with
  | nil => simp [realizeEvents] at he
  | cons b bs ih =>
    cases b with
    | some c =>
      simp only [realizeEvents, List.mem_cons] at he
      rcases he with h | h | h
      · exact Or.inl ⟨i, h⟩
      · exact Or.inr ⟨i, h⟩
      · exact ih _ h
    | none =>
      simp only [realizeEvents, List.mem_cons] at he
      rcases he with h | h
      · exact Or.inl ⟨i, h⟩
      · exact ih _ h

/-- The builder invocations of the realization loop, filtered out of its
event list, are exactly the consecutive indices in order. -/
theorem realizeEvents_filter_isInvoke (i : Nat) (bs : List (Option Cmd)) :
    (realizeEvents i bs).filter Event.isInvoke
      = (List.range' i bs.length).map Event.invokeBuilder := by
  induction bs generalizing i with
  | nil => simp [realizeEvents]
  | cons b bs ih =>
    cases b with
    | some c => simp [realizeEvents, Event.isInvoke, List.range'_succ, ih]
    | none => simp [realizeEvents, Event.isInvoke, List.range'_succ, ih]

/-- Every builder produced by `RegisterCommand` returns a node. -/
theorem registeredBuilder_eq_some (name runId : String)
    (fn : Option (Cmd → Cmd)) : ∃ c, registeredBuilder name runId fn = some c := by
  cases fn <;> exact ⟨_, rfl⟩

/-- Realizing the builders of a sequence of registrations yields one
node per registration. -/
theorem realizedChildren_registry_length (regs : List Registration) :
    (realizedChildren (registryBuilders regs)).length = regs.length := by
  induction regs with
  | nil => rfl
  | cons r regs ih =>
    obtain ⟨c, hc⟩ := registeredBuilder_eq_some r.name r.runId r.fn
    simp only [registryBuilders, realizedChildren, List.map_cons,
      List.filterMap_cons, hc, id_eq, List.length_cons]
    simp only [registryBuilders, realizedChildren] at ih
    omega

/-! ### Claim theorems -/

/-- Claim C1: `Run` returns exit code 0 exactly when `root.Execute`
returned no error; any error whatsoever yields exactly 127; no other
exit code is ever returned. -/
theorem run_exit_code_mapping (builders : List (Option Cmd))
    (execErr : Option String) :
    ((Run builders execErr).exitCode = 0 ↔ execErr = none)
    ∧ (∀ msg, execErr = some msg → (Run builders execErr).exitCode = 127)
    ∧ ((Run builders execErr).exitCode = 0 ∨ (Run builders execErr).exitCode = 127) := by
  cases execErr <;> simp [Run]

/-- Witness for C1: a failing execution returns 127. -/
theorem run_exit_code_mapping_witness :
    (Run [] (some "unknown command")).exitCode = 127 :=
  (run_exit_code_mapping [] (some "unknown command")).2.1 "unknown command" rfl

/-- Claim C2: on every execution path of `Run`, the API client is
closed exactly once, immediately after the execute step and before the
exit code is returned (the trace lists every step preceding the
return), regardless of the execution outcome. -/
theorem run_closes_api_client_once (builders : List (Option Cmd))
    (execErr : Option String) :
    ∃ pre, (Run builders execErr).trace = pre ++ [Event.execute, Event.closeClient]
      ∧ Event.closeClient ∉ pre ∧ Event.execute ∉ pre := by
  refine ⟨[Event.setLogOutput, Event.initLocale, Event.buildRootAndFixedNodes,
      Event.canonicalizeEnv, Event.constructConfig] ++ realizeEvents 0 builders,
      by simp [Run], ?_, ?_⟩
  · intro h
    rcases List.mem_append.mp h with h | h
    · simp at h
    · rcases realizeEvents_mem 0 builders _ h with ⟨j, hj⟩ | ⟨j, hj⟩ <;> simp at hj
  · intro h
    rcases List.mem_append.mp h with h | h
    · simp at h
    · rcases realizeEvents_mem 0 builders _ h with ⟨j, hj⟩ | ⟨j, hj⟩ <;> simp at hj

/-- Claim C3: during `Run`, each registered builder is invoked exactly
once and in registration order (the invocation events are precisely the
indices `0, …, N-1` in order); every invocation happens after the
shared configuration object is constructed, which itself happens right
after environment canonicalization; and the children attached to the
root are the fixed completion node followed by exactly the builders'
non-nil results, in registration order. -/
theorem run_realizes_builders_in_order (builders : List (Option Cmd))
    (execErr : Option String) :
    (Run builders execErr).trace.filter Event.isInvoke
      = (List.range builders.length).map Event.invokeBuilder
    ∧ (∃ pre post,
        (Run builders execErr).trace
          = pre ++ [Event.canonicalizeEnv, Event.constructConfig] ++ post
        ∧ ∀ e ∈ pre, Event.isInvoke e = false)
    ∧ (Run builders execErr).root.children
      = completionCmdNode :: builders.filterMap id := by
  refine ⟨?_, ⟨[Event.setLogOutput, Event.initLocale, Event.buildRootAndFixedNodes],
      realizeEvents 0 builders ++ [Event.execute, Event.closeClient],
      by simp [Run], ?_⟩, rfl⟩
  · simp [Run, List.filter_append, realizeEvents_filter_isInvoke,
      Event.isInvoke, List.range_eq_range']
  · intro e he
    simp only [List.mem_cons, List.not_mem_nil, or_false] at he
    rcases he with rfl | rfl | rfl <;> rfl

/-- Claim C4: for every command name other than the `--help` token, if
the man-page table has an entry for it (and that entry, as the spec
records, carries no surrounding whitespace), help resolution prints the
entry verbatim to standard output; otherwise it prints the localized
"no usage text found" message naming the requested topic. -/
theorem printHelp_lookup (manPages : List (String × String)) (name txt : String) :
    (name ≠ "--help" → manPages.lookup name = some txt → goTrimSpace txt = txt →
      printHelp manPages name = txt ++ "\n")
    ∧ (name ≠ "--help" → manPages.lookup name = none →
      printHelp manPages name = noUsageText name ++ "\n") := by
  constructor
  · intro h1 h2 h3
    simp [printHelp, h1, h2, h3]
  · intro h1 h2
    simp [printHelp, h1, h2]

/-- Witness for C4: a present entry is printed verbatim, an absent
topic yields the fallback message. -/
theorem printHelp_lookup_witness :
    printHelp [("track", "Track paths")] "track" = "Track paths" ++ "\n"
    ∧ printHelp [("track", "Track paths")] "untrack"
      = noUsageText "untrack" ++ "\n" :=
  ⟨(printHelp_lookup [("track", "Track paths")] "track" "Track paths").1
      (by decide) rfl rfl,
   (printHelp_lookup [("track", "Track paths")] "untrack" "").2 (by decide) rfl⟩

/-- Claim C5: help resolution for the `--help` token is identical to
help resolution for `git-lfs`, and the help function invoked with an
empty argument list resolves the root's own name `git-lfs`: both inputs
reach the same man-page lookup. -/
theorem help_normalization (manPages : List (String × String)) :
    printHelp manPages "--help" = printHelp manPages "git-lfs"
    ∧ helpCommand manPages [] = printHelp manPages "git-lfs" := by
  constructor
  · unfold printHelp
    rw [if_pos rfl, if_neg (by decide)]
  · rfl

/-- Claim C9: the diagnostics pre-execution hook, on every invocation:
with the toggle unset or empty it returns with no observable effect;
with the toggle set, a directory-creation failure or a file-creation
failure prints a warning to the error stream and attaches no sink (and
the hook still returns, so the command is not failed); only on success
is the file `http-<unix-seconds>.log`, inside the recursively created
log directory, attached to the API client as a log sink. -/
theorem setupHTTPLogger_cases (env dir : String) (mkdirOk createOk : Bool)
    (now : Int) :
    (env = "" → setupHTTPLogger env dir mkdirOk createOk now
      = { warnedStderr := false, dirCreated := false, logFile := none,
          sinkAttached := false })
    ∧ (env ≠ "" → mkdirOk = false →
      setupHTTPLogger env dir mkdirOk createOk now
      = { warnedStderr := true, dirCreated := false, logFile := none,
          sinkAttached := false })
    ∧ (env ≠ "" → mkdirOk = true → createOk = false →
      setupHTTPLogger env dir mkdirOk createOk now
      = { warnedStderr := true, dirCreated := true, logFile := none,
          sinkAttached := false })
    ∧ (env ≠ "" → mkdirOk = true → createOk = true →
      setupHTTPLogger env dir mkdirOk createOk now
      = { warnedStderr := false, dirCreated := true,
          logFile := some (dir ++ "/http/" ++ httpLogFileName now),
          sinkAttached := true }) := by
  refine ⟨?_, ?_, ?_, ?_⟩
  · intro h
    have : env.length < 1 := (string_length_lt_one_iff env).mpr h
    simp [setupHTTPLogger, this]
  · intro h hm
    have : ¬ env.length < 1 := fun hlt => h ((string_length_lt_one_iff env).mp hlt)
    simp [setupHTTPLogger, this, hm]
  · intro h hm hc
    have : ¬ env.length < 1 := fun hlt => h ((string_length_lt_one_iff env).mp hlt)
    simp [setupHTTPLogger, this, hm, hc]
  · intro h hm hc
    have : ¬ env.length < 1 := fun hlt => h ((string_length_lt_one_iff env).mp hlt)
    simp [setupHTTPLogger, this, hm, hc]

/-- Witness for C9: the four cases of the hook at concrete inputs. -/
theorem setupHTTPLogger_cases_witness :
    setupHTTPLogger "" "/tmp/lfs" true true 7
      = { warnedStderr := false, dirCreated := false, logFile := none,
          sinkAttached := false }
    ∧ setupHTTPLogger "1" "/tmp/lfs" false true 7
      = { warnedStderr := true, dirCreated := false, logFile := none,
          sinkAttached := false }
    ∧ setupHTTPLogger "1" "/tmp/lfs" true false 7
      = { warnedStderr := true, dirCreated := true, logFile := none,
          sinkAttached := false }
    ∧ setupHTTPLogger "1" "/tmp/lfs" true true 7
      = { warnedStderr := false, dirCreated := true,
          logFile := some ("/tmp/lfs" ++ "/http/" ++ httpLogFileName 7),
          sinkAttached := true } :=
  ⟨(setupHTTPLogger_cases "" "/tmp/lfs" true true 7).1 rfl,
   (setupHTTPLogger_cases "1" "/tmp/lfs" false true 7).2.1 (by decide) rfl,
   (setupHTTPLogger_cases "1" "/tmp/lfs" true false 7).2.2.1 (by decide) rfl rfl,
   (setupHTTPLogger_cases "1" "/tmp/lfs" true true 7).2.2.2 (by decide) rfl rfl⟩

/-- Claim C8: the completion command's argument validator accepts
exactly the singleton argument vectors naming one of the four supported
shells; any other argument vector is rejected with a validation error
before the generation body runs, so no completion output is written. -/
theorem completion_validates_shells (genBash genZsh genFish genPowershell : String)
    (args : List String) :
    (completionArgs args = true ↔ ∃ s, args = [s] ∧ s ∈ validShells)
    ∧ (completionArgs args = false →
      completionExecute genBash genZsh genFish genPowershell args
        = { validationError := true, output := "" }) := by
  constructor
  · constructor
    · intro h
      simp only [completionArgs, matchAll, exactArgs, onlyValidArgs,
        List.all_cons, List.all_nil, Bool.and_true, Bool.and_eq_true,
        beq_iff_eq, List.all_eq_true] at h
      obtain ⟨h1, h2⟩ := h
      obtain ⟨s, rfl⟩ := List.length_eq_one.mp h1
      refine ⟨s, rfl, ?_⟩
      have := h2 s (by simp)
      simpa using this
    · rintro ⟨s, rfl, hs⟩
      simp [completionArgs, matchAll, exactArgs, onlyValidArgs, hs]
  · intro h
    simp [completionExecute, h]

/-- Witness for C8: an unsupported shell is rejected without output. -/
theorem completion_validates_shells_witness :
    completionArgs ["cobol"] = false
    ∧ completionExecute "b" "z" "f" "p" ["cobol"]
      = { validationError := true, output := "" } :=
  ⟨by decide,
   (completion_validates_shells "b" "z" "f" "p" ["cobol"]).2 (by decide)⟩

/-- Claim C6: when ordinary tree lookup fails for the help subcommand's
topic, and the topic is one of the two hard-coded aliases `config` or
`faq`, the literal key `help` is substituted for the lookup, so a
successful lookup of `help` makes resolution succeed; for any other
topic whose lookup fails, the unknown-help-topic message and the root
usage are printed. -/
theorem helpcmd_alias_substitution (find : List String → Option Cmd × Bool)
    (topic : String) (rest : List String) (c : Cmd)
    (herr : (find (topic :: rest)).2 = true) :
    ((topic = "config" ∨ topic = "faq") → find ["help"] = (some c, false) →
      helpcmdRun find (topic :: rest) = HelpAction.showHelp c (topic :: rest))
    ∧ (topic ≠ "config" → topic ≠ "faq" →
      helpcmdRun find (topic :: rest)
        = HelpAction.printUnknownAndUsage (topic :: rest)) := by
  constructor
  · intro halias hfind
    simp [helpcmdRun, hfind]
    rw [if_pos ⟨herr, halias⟩]
  · intro h1 h2
    have hne : ¬ (topic = "config" ∨ topic = "faq") := by
      rintro (rfl | rfl)
      · exact h1 rfl
      · exact h2 rfl
    rcases hp : find (topic :: rest) with ⟨oc, b⟩
    rw [hp] at herr
    subst herr
    cases oc <;> simp [helpcmdRun, hp, hne]

/-- A help command node for exercising the alias substitution. -/
def helpNodeW : Cmd := Cmd.mk "help [command]" "helpcmdRun" none []

/-- A concrete tree lookup that only finds the `help` node. -/
def findW : List String → Option Cmd × Bool :=
  fun args => if args.headD "" == "help" then (some helpNodeW, false) else (none, true)

/-- Witness for C6: looking up the alias topic `config` in a tree where
it is unknown resolves via the substituted `help` key. -/
theorem helpcmd_alias_substitution_witness :
    helpcmdRun findW ["config"] = HelpAction.showHelp helpNodeW ["config"] :=
  (helpcmd_alias_substitution findW "config" [] helpNodeW rfl).1 (Or.inl rfl) rfl

/-- A customize callback that clears the node's `PreRun` hook, as the
`NewCommand` documentation contemplates ("unless the PreRun hook is set
to nil"). -/
def clearPreRunCallback : Cmd → Cmd :=
  fun c => Cmd.mk c.use c.runId none c.children

/-- Counterexample for C10: a registration whose customize callback
sets `PreRun` to nil yields a node that does not carry the diagnostics
hook, so "every such node carries the diagnostics hook as its pre-run
callback" fails as stated. -/
theorem registered_preRun_counterexample :
    (registeredBuilder "env" "envRun" (some clearPreRunCallback)).map Cmd.preRun
      = some none
    ∧ (some none : Option (Option String)) ≠ some (some "setupHTTPLogger") :=
  ⟨rfl, by simp⟩

/-- Claim C10 (amended): every builder closure appended by
`RegisterCommand` returns a non-nil command node — `NewCommand` always
constructs one and the customize callback cannot replace it with nil —
so the skip sentinel never arises from a `RegisterCommand` registration
and realization attaches one node per registration; each such node
carries the diagnostics hook as its pre-run callback provided the
customize callback leaves the pre-run hook unchanged (in particular
when it is absent); and the root node itself has no pre-run hook. -/
theorem registered_builders_never_skip (regs : List Registration)
    (execErr : Option String) (name runId : String) (fn : Option (Cmd → Cmd)) :
    (registeredBuilder name runId fn).isSome = true
    ∧ (realizedChildren (registryBuilders regs)).length = regs.length
    ∧ ((∀ c, (fn.getD id c).preRun = c.preRun) →
      (registeredBuilder name runId fn).map Cmd.preRun
        = some (some "setupHTTPLogger"))
    ∧ (Run (registryBuilders regs) execErr).root.preRun = none := by
  refine ⟨?_, realizedChildren_registry_length regs, ?_, rfl⟩
  · obtain ⟨c, hc⟩ := registeredBuilder_eq_some name runId fn
    simp [hc]
  · intro h
    cases fn with
    | none => rfl
    | some f =>
      have hpre := h (NewCommand name runId)
      simp only [Option.getD] at hpre
      simp only [registeredBuilder, Option.map_some']
      rw [hpre]
      rfl

/-- Witness for C10 (amended): a registration without a customize
callback yields a node whose pre-run hook is the diagnostics hook. -/
theorem registered_builders_never_skip_witness :
    (registeredBuilder "track" "trackRun" none).map Cmd.preRun
      = some (some "setupHTTPLogger") :=
  (registered_builders_never_skip [] none "track" "trackRun" none).2.2.1
    (fun _ => rfl)

/-- `replaceFirst` replaces exactly the first occurrence of a
(non-empty) pattern: on a string decomposed around its earliest
occurrence of `old`, the prefix and suffix are kept and `old` becomes
`new`. -/
theorem replaceFirst_first_occurrence (old new : List Char) (hold : old ≠ [])
    (p q : List Char)
    (hmin : ∀ p' q', p ++ (old ++ q) = p' ++ (old ++ q') → p.length ≤ p'.length) :
    replaceFirst old new (p ++ (old ++ q)) = p ++ (new ++ q) := by
  induction p with
  | nil =>
    simp only [List.nil_append]
    cases old with
    | nil => exact absurd rfl hold
    | cons a old' =>
      show replaceFirst (a :: old') new (a :: (old' ++ q)) = new ++ q
      have hpre : (a :: old').isPrefixOf (a :: (old' ++ q)) = true := by
        rw [List.isPrefixOf_iff_prefix, show a :: (old' ++ q) = (a :: old') ++ q from rfl]
        exact List.prefix_append _ _
      simp only [replaceFirst, hpre, if_true]
      rw [show a :: (old' ++ q) = (a :: old') ++ q from rfl, List.drop_left]
  | cons c p ih =>
    show replaceFirst old new (c :: (p ++ (old ++ q))) = c :: (p ++ (new ++ q))
    have hnotpre : old.isPrefixOf (c :: (p ++ (old ++ q))) = false := by
      cases hb : old.isPrefixOf (c :: (p ++ (old ++ q))) with
      | false => rfl
      | true =>
        rw [List.isPrefixOf_iff_prefix] at hb
        obtain ⟨t, ht⟩ := hb
        have hdec : (c :: p) ++ (old ++ q) = [] ++ (old ++ t) := by
          rw [List.nil_append, List.cons_append, ht]
        have := hmin [] t hdec
        simp at this
    simp only [replaceFirst, hnotpre, Bool.false_eq_true, if_false, List.cons.injEq,
      true_and]
    exact ih (fun p' q' hpq => by
      have := hmin (c :: p') q' (by rw [List.cons_append, hpq]; rfl)
      simpa using this)

/-- Claim C7: for bash, the completion output is the generated script
with the fixed trailer line appended, so it always ends with that
trailer; for zsh, exactly one textual substitution is performed — the
first occurrence of the `requestComp` assignment pattern in the
generated script is replaced by the rewritten prefix-stripping pattern,
everything else kept in place. -/
theorem completion_postprocessing (genBash genZsh genFish genPowershell : String)
    (p q : List Char)
    (hocc : genZsh.data = p ++ (zshOldPat.data ++ q))
    (hfirst : ∀ p' q', genZsh.data = p' ++ (zshOldPat.data ++ q') →
      p.length ≤ p'.length) :
    bashTrailer.data <:+ (completionRun genBash genZsh genFish genPowershell "bash").data
    ∧ (completionRun genBash genZsh genFish genPowershell "zsh").data
      = p ++ (zshNewPat.data ++ q) := by
  constructor
  · show bashTrailer.data <:+ (genBash ++ bashTrailer).data
    rw [String.data_append]
    exact List.suffix_append _ _
  · show (goReplaceFirst genZsh zshOldPat zshNewPat).data = p ++ (zshNewPat.data ++ q)
    show replaceFirst zshOldPat.data zshNewPat.data genZsh.data
      = p ++ (zshNewPat.data ++ q)
    rw [hocc]
    exact replaceFirst_first_occurrence zshOldPat.data zshNewPat.data
      (by decide) p q (fun p' q' h => hfirst p' q' (hocc.trans h))

/-- Witness for C7: a generated script starting with the zsh pattern is
rewritten at that first occurrence. -/
theorem completion_postprocessing_witness :
    (completionRun "" (zshOldPat ++ "rest") "" "" "zsh").data
      = [] ++ (zshNewPat.data ++ "rest".data) :=
  (completion_postprocessing "" (zshOldPat ++ "rest") "" "" []
    "rest".data (by rw [String.data_append]; rfl)
    (fun p' q' h => Nat.zero_le _)).2

end GitLfs
